import Mathlib

/-!
Verification development for the TON ABI codec (`ton-labs-abi`).

This file shallowly embeds the parts of the library that the checked
properties are about:

* the ABI version model and its ordering,
* the cell / builder model of the external `ton_types` cell library
  (bit and reference capacities 1023 / 4, with all appends checked,
  as the library documents),
* the chain-packing algorithm `TokenValue::pack_cells_into_chain`
  (`src/token/serialize.rs`),
* the byte-chain serializer `bytes_to_cells` / `write_bytes`,
* the type model (`ParamType`) with `max_bit_size`, `max_refs_count`,
  `is_large_optional` and `type_signature` (`src/token/mod.rs`,
  `src/param_type/param_type.rs`),
* the value serializers `write_int`, `write_uint`, `write_bool`,
  `write_bytes`, `write_optional` and `write_to_cells` for the value
  fragment the properties exercise,
* the function-id derivation (`Function::get_function_signature`,
  `Function::calc_function_id`, `Function::from_serde`) including a
  full SHA-256 implementation,
* the signing helpers `Function::fill_sign` and
  `Function::create_unsigned_call`,
* the tokenizer width checks `check_int_size` / `check_uint_size` and
  the integer string readers of `src/token/tokenizer.rs`.
-/

set_option maxRecDepth 1000000

/-- Modelled from the spec: the ABI version is a (major, minor) pair,
total-ordered (lexicographically).  The defining file `contract.rs` is not
part of the sources at hand; the spec lists the recognized versions
1.0, 2.0, 2.1, 2.2, 2.3, 2.4, 2.7. -/
structure AbiVersion where
  major : Nat
  minor : Nat
deriving DecidableEq, Repr

def ABI_VERSION_1_0 : AbiVersion := ⟨1, 0⟩

def ABI_VERSION_2_0 : AbiVersion := ⟨2, 0⟩

def ABI_VERSION_2_1 : AbiVersion := ⟨2, 1⟩

def ABI_VERSION_2_2 : AbiVersion := ⟨2, 2⟩

def ABI_VERSION_2_3 : AbiVersion := ⟨2, 3⟩

def ABI_VERSION_2_4 : AbiVersion := ⟨2, 4⟩

/-- Lexicographic `<=` on ABI versions (the derived `Ord` of the pair). -/
def abiLe (a b : AbiVersion) : Bool :=
  decide (a.major < b.major ∨ (a.major = b.major ∧ a.minor ≤ b.minor))

/-- Lexicographic `<` on ABI versions. -/
def abiLt (a b : AbiVersion) : Bool :=
  decide (a.major < b.major ∨ (a.major = b.major ∧ a.minor < b.minor))

/-- A finalized cell of the external cell library: up to 1023 data bits and
up to 4 ordered references to child cells. -/
inductive Cell where
  | mk (bits : List Bool) (refs : List Cell)

def Cell.bits : Cell → List Bool
  | .mk b _ => b

def Cell.refs : Cell → List Cell
  | .mk _ r => r

mutual

def cellDecEq : (a b : Cell) → Decidable (a = b)
  | .mk b1 r1, .mk b2 r2 =>
    match decEq b1 b2 with
    | isFalse h => isFalse (by simp [h])
    | isTrue h1 =>
      match cellListDecEq r1 r2 with
      | isFalse h => isFalse (by simp [h1, h])
      | isTrue h2 => isTrue (by rw [h1, h2])

def cellListDecEq : (a b : List Cell) → Decidable (a = b)
  | [], [] => isTrue rfl
  | [], _ :: _ => isFalse (by simp)
  | _ :: _, [] => isFalse (by simp)
  | a :: as, b :: bs =>
    match cellDecEq a b, cellListDecEq as bs with
    | isTrue h1, isTrue h2 => isTrue (by rw [h1, h2])
    | isFalse h, _ => isFalse (by simp [h])
    | _, isFalse h => isFalse (by simp [h])

end

instance : DecidableEq Cell := cellDecEq

/-- `BuilderData::bits_capacity()`. -/
def bitsCapacity : Nat := 1023

/-- `BuilderData::references_capacity()`. -/
def referencesCapacity : Nat := 4

/-- An in-progress cell (`BuilderData`).  The library maintains the
capacity invariant by checking every append. -/
structure Builder where
  bits : List Bool
  refs : List Cell
deriving DecidableEq

def Builder.new : Builder := ⟨[], []⟩

/-- `BuilderData::into_cell` (finalization). -/
def Builder.intoCell (b : Builder) : Cell := .mk b.bits b.refs

/-- `BuilderData::append_builder`: appends another builder's bits and
references, failing with a cell-overflow error when capacity is exceeded. -/
def Builder.appendBuilder (b x : Builder) : Option Builder :=
  if b.bits.length + x.bits.length ≤ bitsCapacity ∧
      b.refs.length + x.refs.length ≤ referencesCapacity then
    some ⟨b.bits ++ x.bits, b.refs ++ x.refs⟩
  else none

/-- `BuilderData::checked_append_reference`: adds a reference at the end,
failing when all 4 reference slots are taken. -/
def Builder.checkedAppendReference (b : Builder) (c : Cell) : Option Builder :=
  if b.refs.length < referencesCapacity then some ⟨b.bits, b.refs ++ [c]⟩
  else none

/-- `BuilderData::checked_prepend_reference`: inserts a reference in the
first slot, failing when all 4 reference slots are taken. -/
def Builder.checkedPrependReference (b : Builder) (c : Cell) : Option Builder :=
  if b.refs.length < referencesCapacity then some ⟨b.bits, c :: b.refs⟩
  else none

/-- `BuilderData::append_raw` restricted to an explicit bit list (the
callers in this file always pass a byte slice together with its exact bit
count, so the list is the slice's first `bits` bits). -/
def Builder.appendRaw (b : Builder) (bs : List Bool) : Option Builder :=
  if b.bits.length + bs.length ≤ bitsCapacity then some ⟨b.bits ++ bs, b.refs⟩
  else none

/-- `BuilderData::prepend_raw`, with the same convention as `appendRaw`. -/
def Builder.prependRaw (b : Builder) (bs : List Bool) : Option Builder :=
  if bs.length + b.bits.length ≤ bitsCapacity then some ⟨bs ++ b.bits, b.refs⟩
  else none

/-- `BuilderData::prepend_builder`: puts the other builder's bits and
references before this builder's own. -/
def Builder.prependBuilder (b x : Builder) : Option Builder :=
  if x.bits.length + b.bits.length ≤ bitsCapacity ∧
      x.refs.length + b.refs.length ≤ referencesCapacity then
    some ⟨x.bits ++ b.bits, x.refs ++ b.refs⟩
  else none

/-- The 8 bits of a byte, most significant first. -/
def byteBits (x : Nat) : List Bool :=
  (List.range 8).map (fun i => x.testBit (7 - i))

/-- Big-endian bit string of a byte slice. -/
def bytesToBits (bs : List Nat) : List Bool :=
  (bs.map byteBits).flatten

/-- The low `len` bits of a number, most significant first
(`BuilderData::append_bits`). -/
def natToBitsLen (v len : Nat) : List Bool :=
  (List.range len).map (fun i => v.testBit (len - 1 - i))

/-- Halving recursion for `natBits`, driven by structural fuel. -/
def natBitsAux : Nat → Nat → Nat
  | 0, _ => 0
  | fuel + 1, n => if n = 0 then 0 else natBitsAux fuel (n / 2) + 1

/-- The bit length of a natural number (`BigUint::bits`): zero for zero,
otherwise the position of the highest set bit plus one.  The fuel `n`
covers every input since each step halves the number. -/
def natBits (n : Nat) : Nat := natBitsAux n n

mutual

/-- The cell-library invariant: every cell holds at most 1023 data bits
and at most 4 references, recursively. -/
def Cell.ok : Cell → Bool
  | .mk bits refs =>
    decide (bits.length ≤ bitsCapacity) && decide (refs.length ≤ referencesCapacity) &&
      Cell.okList refs

def Cell.okList : List Cell → Bool
  | [] => true
  | c :: cs => Cell.ok c && Cell.okList cs

end

/-- The cell-library invariant for a builder and all cells hanging off it. -/
def Builder.okDeep (b : Builder) : Bool :=
  decide (b.bits.length ≤ bitsCapacity) && decide (b.refs.length ≤ referencesCapacity) &&
    Cell.okList b.refs

/-- `SerializedValue` (src/token/serialize.rs): a builder together with the
worst-case envelope `(max_bits, max_refs)` of its type. -/
structure SerializedValue where
  data : Builder
  maxBits : Nat
  maxRefs : Nat
deriving DecidableEq

/-- The initial empty accumulator cell of `pack_cells_into_chain`. -/
def SerializedValue.empty : SerializedValue := ⟨Builder.new, 0, 0⟩

/-- The `(remaining_bits, _)` computation of `pack_cells_into_chain`
lines 88-95: the envelope free space in `>= 2.2`, the actual free space
before. -/
def remainingBits (abi : AbiVersion) (builder : SerializedValue) : Nat :=
  if abiLe ABI_VERSION_2_2 abi then bitsCapacity - builder.maxBits
  else bitsCapacity - builder.data.bits.length

/-- The `(_, remaining_refs)` computation of `pack_cells_into_chain`. -/
def remainingRefs (abi : AbiVersion) (builder : SerializedValue) : Nat :=
  if abiLe ABI_VERSION_2_2 abi then referencesCapacity - builder.maxRefs
  else referencesCapacity - builder.data.refs.length

/-- The `(value_bits, _)` computation of `pack_cells_into_chain` lines
96-100. -/
def valueBits (abi : AbiVersion) (value : SerializedValue) : Nat :=
  if abiLe ABI_VERSION_2_2 abi then value.maxBits else value.data.bits.length

/-- The `(_, value_refs)` computation of `pack_cells_into_chain`. -/
def valueRefs (abi : AbiVersion) (value : SerializedValue) : Nat :=
  if abiLe ABI_VERSION_2_2 abi then value.maxRefs else value.data.refs.length

/-- `TokenValue::get_remaining`: sums `(refs, bits)` over the values still
to be packed, by envelope in `>= 2.2` and by actual usage before. -/
def getRemaining (values : List SerializedValue) (abi : AbiVersion) : Nat × Nat :=
  values.foldl
    (fun acc value =>
      if abiLe ABI_VERSION_2_2 abi then (acc.1 + value.maxRefs, acc.2 + value.maxBits)
      else (acc.1 + value.data.refs.length, acc.2 + value.data.bits.length))
    (0, 0)

/-- The main loop of `TokenValue::pack_cells_into_chain` (lines 85-125).
The accumulator mirrors `packed_cells` with the most recent (current)
builder at the head; the source keeps the list in the opposite order and
pops `values` from its reversed end, which is the same traversal.  The
source's `usize` subtractions cannot underflow on the reachable states, so
truncated `Nat` subtraction coincides with them. -/
def packCellsAux (abi : AbiVersion) :
    List SerializedValue → List SerializedValue → Option (List SerializedValue)
  | [], acc => some acc
  | value :: rest, acc =>
    match acc with
    | [] => none
    | builder :: sealed =>
      let rb := remainingBits abi builder
      let rr := remainingRefs abi builder
      let vb := valueBits abi value
      let vr := valueRefs abi value
      if rb < vb ∨ rr < vr then
        -- not enough bits or refs: continue the chain
        packCellsAux abi rest (value :: builder :: sealed)
      else if 0 < vr ∧ rr = vr then
        -- refs strictly fit: look ahead over the remaining values
        if abi ≠ ABI_VERSION_1_0 ∧
            ((getRemaining rest abi).1 = 0 ∧
              (getRemaining rest abi).2 + vb ≤ rb) then
          match builder.data.appendBuilder value.data with
          | none => none
          | some d =>
            packCellsAux abi rest
              (⟨d, builder.maxBits + value.maxBits, builder.maxRefs + value.maxRefs⟩ :: sealed)
        else
          packCellsAux abi rest (value :: builder :: sealed)
      else
        match builder.data.appendBuilder value.data with
        | none => none
        | some d =>
          packCellsAux abi rest
            (⟨d, builder.maxBits + value.maxBits, builder.maxRefs + value.maxRefs⟩ :: sealed)

/-- The final linking fold of `pack_cells_into_chain` (lines 126-136):
each successor cell becomes the last reference of its predecessor,
starting from the tail.  The head of the input list is the newest
(terminal) cell, as in `packCellsAux`'s accumulator. -/
def linkChainAux : SerializedValue → List SerializedValue → Option Builder
  | x, [] => some x.data
  | x, y :: rest =>
    match y.data.checkedAppendReference x.data.intoCell with
    | none => none
    | some d => linkChainAux ⟨d, y.maxBits, y.maxRefs⟩ rest

def linkChain : List SerializedValue → Option Builder
  | [] => none
  | x :: rest => linkChainAux x rest

/-- `TokenValue::pack_cells_into_chain`. -/
def packCellsInChain (values : List SerializedValue) (abi : AbiVersion) : Option Builder :=
  match packCellsAux abi values [SerializedValue.empty] with
  | none => none
  | some acc => linkChain acc

/-- `ParamType` (src/param_type/param_type.rs).  A tuple's components are
`Param { name, kind }` pairs, modelled as `String × ParamType`. -/
inductive ParamType where
  | uint (size : Nat)
  | int (size : Nat)
  | varuint (size : Nat)
  | varint (size : Nat)
  | bool
  | tuple (params : List (String × ParamType))
  | array (t : ParamType)
  | fixedarray (t : ParamType) (size : Nat)
  | cell
  | map (k v : ParamType)
  | address
  | addressStd
  | bytes
  | fixedbytes (size : Nat)
  | string
  | token
  | time
  | expire
  | publicKey
  | optional (t : ParamType)
  | ref (t : ParamType)

/-- `TokenValue::varint_size_len`: `8 - ((size - 1) as u8).leading_zeros()`,
i.e. the bit length of `(size - 1) mod 256`. -/
def varintSizeLen (size : Nat) : Nat := natBits ((size - 1) % 256)

mutual

/-- `TokenValue::max_refs_count` (src/token/mod.rs lines 442-479). -/
def maxRefsCount : ParamType → AbiVersion → Nat
  | .uint _, _ => 0
  | .int _, _ => 0
  | .varuint _, _ => 0
  | .varint _, _ => 0
  | .bool, _ => 0
  | .address, _ => 0
  | .addressStd, _ => 0
  | .token, _ => 0
  | .time, _ => 0
  | .expire, _ => 0
  | .publicKey, _ => 0
  | .fixedbytes _, abi => if abiLe ABI_VERSION_2_4 abi then 0 else 1
  | .array _, _ => 1
  | .fixedarray _ _, _ => 1
  | .cell, _ => 1
  | .string, _ => 1
  | .map _ _, _ => 1
  | .bytes, _ => 1
  | .ref _, _ => 1
  | .tuple params, abi => maxRefsCountList params abi
  | .optional t, abi =>
    if bitsCapacity ≤ maxBitSize t abi ∨ referencesCapacity ≤ maxRefsCount t abi then 1
    else maxRefsCount t abi

/-- Sum of `max_refs_count` over tuple components. -/
def maxRefsCountList : List (String × ParamType) → AbiVersion → Nat
  | [], _ => 0
  | p :: rest, abi => maxRefsCount p.2 abi + maxRefsCountList rest abi

/-- `TokenValue::max_bit_size` (src/token/mod.rs lines 481-513). -/
def maxBitSize : ParamType → AbiVersion → Nat
  | .uint size, _ => size
  | .int size, _ => size
  | .varuint size, _ => varintSizeLen size + (size - 1) * 8
  | .varint size, _ => varintSizeLen size + (size - 1) * 8
  | .bool, _ => 1
  | .array _, _ => 33
  | .fixedarray _ _, _ => 1
  | .cell, _ => 0
  | .map _ _, _ => 1
  | .address, _ => 591
  | .addressStd, _ => 2 + (1 + 5 + 30) + 8 + 256
  | .fixedbytes size, abi => if abiLe ABI_VERSION_2_4 abi then size * 8 else 0
  | .bytes, _ => 0
  | .string, _ => 0
  | .token, _ => 124
  | .time, _ => 64
  | .expire, _ => 32
  | .publicKey, _ => 257
  | .ref _, _ => 0
  | .tuple params, abi => maxBitSizeList params abi
  | .optional t, abi =>
    if bitsCapacity ≤ maxBitSize t abi ∨ referencesCapacity ≤ maxRefsCount t abi then 1
    else 1 + maxBitSize t abi

/-- Sum of `max_bit_size` over tuple components. -/
def maxBitSizeList : List (String × ParamType) → AbiVersion → Nat
  | [], _ => 0
  | p :: rest, abi => maxBitSize p.2 abi + maxBitSizeList rest abi

end

/-- `TokenValue::is_large_optional`: the inner type's worst case does not
leave room in a cell (`max_bit_size >= 1023` or `max_refs_count >= 4`).
The `optional` cases of `maxRefsCount` and `maxBitSize` inline exactly this
condition. -/
def isLargeOptional (t : ParamType) (abi : AbiVersion) : Bool :=
  decide (bitsCapacity ≤ maxBitSize t abi) || decide (referencesCapacity ≤ maxRefsCount t abi)

mutual

/-- `ParamType::type_signature` (src/param_type/param_type.rs lines
78-112).  For tuples the source accumulates `","`-prefixed component
signatures and replaces the first character by `"("`; on the non-empty
tuples produced by the schema reader that equals the comma-joined list in
parentheses written here (on an empty tuple the source panics). -/
def typeSignature : ParamType → String
  | .uint size => "uint" ++ toString size
  | .int size => "int" ++ toString size
  | .varuint size => "varuint" ++ toString size
  | .varint size => "varint" ++ toString size
  | .bool => "bool"
  | .tuple params => "(" ++ typeSignatureList params ++ ")"
  | .array t => typeSignature t ++ "[]"
  | .fixedarray t size => typeSignature t ++ "[" ++ toString size ++ "]"
  | .cell => "cell"
  | .map k v => "map(" ++ typeSignature k ++ "," ++ typeSignature v ++ ")"
  | .address => "address"
  | .addressStd => "address_std"
  | .bytes => "bytes"
  | .fixedbytes size => "fixedbytes" ++ toString size
  | .string => "string"
  | .token => "gram"
  | .time => "time"
  | .expire => "expire"
  | .publicKey => "pubkey"
  | .optional t => "optional(" ++ typeSignature t ++ ")"
  | .ref t => "ref(" ++ typeSignature t ++ ")"

/-- Comma-joined component signatures of a tuple. -/
def typeSignatureList : List (String × ParamType) → String
  | [] => ""
  | [p] => typeSignature p.2
  | p :: rest => typeSignature p.2 ++ "," ++ typeSignatureList rest

end

/-- Big-endian bytes of `v`, exactly `n` bytes (`u32::to_be_bytes` and the
byte windows used below). -/
def beBytes (n v : Nat) : List Nat :=
  (List.range n).map (fun i => v >>> (8 * (n - 1 - i)) % 256)

/-- `num_bigint::BigInt::to_signed_bytes_be`: minimal two's-complement
big-endian bytes (`[0]` for zero; a positive number gets a leading zero
byte when its top bit would be set; a negative number is encoded in the
fewest bytes whose two's complement can hold it). -/
def toSignedBytesBE (n : Int) : List Nat :=
  if n = 0 then [0]
  else if 0 < n then
    let m := n.toNat
    beBytes (natBits m / 8 + 1) m
  else
    let m := (-n).toNat
    let k := natBits (m - 1) / 8 + 1
    beBytes k (2 ^ (8 * k) - m)

/-- `BigInt::bits` / `BigUint::bits`: the bit length of the magnitude. -/
def intBits (n : Int) : Nat := natBits n.natAbs

/-- The `Int { number, size }` struct of the crate (a big integer plus its
declared bit width). -/
structure IntValue where
  number : Int
  size : Nat
deriving DecidableEq

/-- The `Uint { number, size }` struct of the crate. -/
structure UintValue where
  number : Nat
  size : Nat
deriving DecidableEq

/-- `TokenValue::write_int` (src/token/serialize.rs lines 199-235): the
signed bytes are padded on the left up to the declared width, or their low
`size` bits are taken after an explicit bit-length check. -/
def writeInt (value : IntValue) : Option Builder :=
  let vec := toSignedBytesBE value.number
  let vecBitsLength := vec.length * 8
  if value.size > vecBitsLength then
    let padding : Nat := if value.number < 0 then 0xFF else 0
    let dif := value.size - vecBitsLength
    let vecPadding := List.replicate (dif / 8 + 1) padding
    match Builder.new.appendRaw ((bytesToBits vecPadding).take dif) with
    | none => none
    | some b1 => b1.appendRaw ((bytesToBits vec).take (value.size - dif))
  else
    let numberBits := intBits value.number
    if value.size < numberBits then none
    else
      let offset := vecBitsLength - value.size
      let firstByte := vec.getD (offset / 8) 0 * 2 ^ (offset % 8) % 256
      match Builder.new.appendRaw ((byteBits firstByte).take (8 - offset % 8)) with
      | none => none
      | some b1 => b1.appendRaw (bytesToBits (vec.drop (offset / 8 + 1)))

/-- `TokenValue::write_uint`: delegates to `writeInt` with the positive
big integer. -/
def writeUint (value : UintValue) : Option Builder :=
  writeInt ⟨Int.ofNat value.number, value.size⟩

/-- `TokenValue::write_bool`. -/
def writeBool (b : Bool) : Option Builder :=
  Builder.new.appendRaw [b]

/-- The loop of `TokenValue::bytes_to_cells` (lines 363-373), with the
iteration count bounded by `fuel`; every reachable call consumes at least
one byte per iteration, so `data.length + 1` fuel never runs out. -/
def bytesToCellsLoop (data : List Nat) :
    Nat → Nat → Nat → Builder → Option Cell
  | 0, len, _, builder => if len = 0 then some builder.intoCell else none
  | fuel + 1, len, cap, builder =>
    if len = 0 then some builder.intoCell
    else
      let len' := len - cap
      match builder.appendRaw (bytesToBits ((data.drop len').take cap)) with
      | none => none
      | some b1 =>
        let builder2 : Builder := if 0 < len' then ⟨[], [b1.intoCell]⟩ else b1
        bytesToCellsLoop data fuel len' (min (bitsCapacity / 8) len') builder2

/-- `TokenValue::bytes_to_cells` (lines 352-375): the data is cut into
chunks from the tail, the first chunk sized `min(127, len)` in ABI 1.0 and
`len mod 127` (or 127 when that is zero) later, every further chunk sized
`min(127, remaining)`; each earlier chunk gets the cell built so far as
its single reference. -/
def bytesToCells (data : List Nat) (abi : AbiVersion) : Option Cell :=
  let cellLen := bitsCapacity / 8
  let len := data.length
  let cap :=
    if abi = ABI_VERSION_1_0 then min cellLen len
    else if len % cellLen = 0 then cellLen else len % cellLen
  bytesToCellsLoop data (len + 1) len cap Builder.new

/-- `TokenValue::write_bytes` (lines 377-382): the whole byte chain hangs
off a fresh builder as its single reference. -/
def writeBytes (data : List Nat) (abi : AbiVersion) : Option Builder :=
  match bytesToCells data abi with
  | none => none
  | some cell => Builder.new.checkedAppendReference cell

/-- The fragment of `TokenValue` (src/token/mod.rs) exercised by the
checked properties; a tuple member is a `Token { name, value }`, modelled
as `String × TokenValue`. -/
inductive TokenValue where
  | uint (value : UintValue)
  | int (value : IntValue)
  | bool (b : Bool)
  | tuple (tokens : List (String × TokenValue))
  | bytes (data : List Nat)
  | optional (t : ParamType) (value : Option TokenValue)

mutual

/-- `TokenValue::get_param_type` on the modelled fragment. -/
def TokenValue.getParamType : TokenValue → ParamType
  | .uint u => .uint u.size
  | .int i => .int i.size
  | .bool _ => .bool
  | .tuple tokens => .tuple (TokenValue.getParamTypeList tokens)
  | .bytes _ => .bytes
  | .optional t _ => .optional t

def TokenValue.getParamTypeList : List (String × TokenValue) → List (String × ParamType)
  | [] => []
  | t :: rest => (t.1, t.2.getParamType) :: TokenValue.getParamTypeList rest

end

/-- Wraps a written builder into the one-element `SerializedValue` list
with the envelope of the value's parameter type (src/token/serialize.rs
lines 191-196). -/
def wrapSV (data? : Option Builder) (pt : ParamType) (abi : AbiVersion) :
    Option (List SerializedValue) :=
  match data? with
  | none => none
  | some data => some [⟨data, maxBitSize pt abi, maxRefsCount pt abi⟩]

mutual

/-- `TokenValue::write_to_cells` on the modelled fragment: a tuple
contributes its members' cells in order; every other value becomes one
`SerializedValue` carrying its type's envelope. -/
def writeToCells : TokenValue → AbiVersion → Option (List SerializedValue)
  | .uint u, abi => wrapSV (writeUint u) (.uint u.size) abi
  | .int i, abi => wrapSV (writeInt i) (.int i.size) abi
  | .bool b, abi => wrapSV (writeBool b) .bool abi
  | .tuple tokens, abi => writeToCellsList tokens abi
  | .bytes data, abi => wrapSV (writeBytes data abi) .bytes abi
  | .optional t v?, abi => wrapSV (writeOptional t v? abi) (.optional t) abi

def writeToCellsList : List (String × TokenValue) → AbiVersion → Option (List SerializedValue)
  | [], _ => some []
  | t :: rest, abi =>
    match writeToCells t.2 abi with
    | none => none
    | some a =>
      match writeToCellsList rest abi with
      | none => none
      | some b => some (a ++ b)

/-- `TokenValue::write_optional` (src/token/serialize.rs lines 456-472):
an absent value is a lone `0` bit; a present value of large inner type is
a `1` bit plus a reference to the packed chain; otherwise the `1` bit is
prepended to the packed chain itself. -/
def writeOptional (pt : ParamType) (v? : Option TokenValue) (abi : AbiVersion) :
    Option Builder :=
  match v? with
  | some v =>
    if isLargeOptional pt abi then
      match
        (match writeToCells v abi with
          | none => none
          | some cs => packCellsInChain cs abi) with
      | none => none
      | some chain => (Builder.mk [true] []).checkedAppendReference chain.intoCell
    else
      match
        (match writeToCells v abi with
          | none => none
          | some cs => packCellsInChain cs abi) with
      | none => none
      | some b => b.prependRaw [true]
  | none => Builder.new.appendRaw [false]

end

/-- `TokenValue::pack_into_chain`: serialize one value and pack the
resulting cells. -/
def packIntoChain (v : TokenValue) (abi : AbiVersion) : Option Builder :=
  match writeToCells v abi with
  | none => none
  | some cs => packCellsInChain cs abi

/-- Truncation to a 32-bit word. -/
def w32 (x : Nat) : Nat := x % 4294967296

/-- 32-bit right rotation. -/
def rotr32 (n x : Nat) : Nat := w32 ((x >>> n) ||| (x <<< (32 - n)))

/-- SHA-256 `Ch`. -/
def shaCh (x y z : Nat) : Nat := (x &&& y) ^^^ ((x ^^^ 0xFFFFFFFF) &&& z)

/-- SHA-256 `Maj`. -/
def shaMaj (x y z : Nat) : Nat := (x &&& y) ^^^ (x &&& z) ^^^ (y &&& z)

/-- SHA-256 `Sigma_0`. -/
def bigSigma0 (x : Nat) : Nat := rotr32 2 x ^^^ rotr32 13 x ^^^ rotr32 22 x

/-- SHA-256 `Sigma_1`. -/
def bigSigma1 (x : Nat) : Nat := rotr32 6 x ^^^ rotr32 11 x ^^^ rotr32 25 x

/-- SHA-256 `sigma_0`. -/
def smallSigma0 (x : Nat) : Nat := rotr32 7 x ^^^ rotr32 18 x ^^^ (x >>> 3)

/-- SHA-256 `sigma_1`. -/
def smallSigma1 (x : Nat) : Nat := rotr32 17 x ^^^ rotr32 19 x ^^^ (x >>> 10)

/-- The SHA-256 round constants. -/
def sha256K : List Nat :=
  [1116352408, 1899447441, 3049323471, 3921009573, 961987163, 1508970993,
   2453635748, 2870763221, 3624381080, 310598401, 607225278, 1426881987,
   1925078388, 2162078206, 2614888103, 3248222580, 3835390401, 4022224774,
   264347078, 604807628, 770255983, 1249150122, 1555081692, 1996064986,
   2554220882, 2821834349, 2952996808, 3210313671, 3336571891, 3584528711,
   113926993, 338241895, 666307205, 773529912, 1294757372, 1396182291,
   1695183700, 1986661051, 2177026350, 2456956037, 2730485921, 2820302411,
   3259730800, 3345764771, 3516065817, 3600352804, 4094571909, 275423344,
   430227734, 506948616, 659060556, 883997877, 958139571, 1322822218,
   1537002063, 1747873779, 1955562222, 2024104815, 2227730452, 2361852424,
   2428436474, 2756734187, 3204031479, 3329325298]

/-- The SHA-256 initial hash state. -/
def sha256H0 : List Nat :=
  [1779033703, 3144134277, 1013904242, 2773480762, 1359893119, 2600822924,
   528734635, 1541459225]

/-- SHA-256 message padding: a `0x80` byte, zeros up to 56 mod 64, and the
bit length as 8 big-endian bytes. -/
def sha256pad (msg : List Nat) : List Nat :=
  msg ++ 0x80 :: List.replicate ((119 - msg.length % 64) % 64) 0 ++ beBytes 8 (msg.length * 8)

/-- Big-endian 32-bit words of a byte list. -/
def wordsOfBytes : List Nat → List Nat
  | a :: b :: c :: d :: rest =>
    (a * 16777216 + b * 65536 + c * 256 + d) :: wordsOfBytes rest
  | _ => []

/-- The SHA-256 message schedule: the 16 block words extended to 64. -/
def msgSchedule (w16 : List Nat) : List Nat :=
  (List.range 48).foldl
    (fun ws _ =>
      let t := ws.length
      ws ++ [w32 (smallSigma1 (ws.getD (t - 2) 0) + ws.getD (t - 7) 0 +
        smallSigma0 (ws.getD (t - 15) 0) + ws.getD (t - 16) 0)])
    w16

/-- One SHA-256 compression round over one 64-byte block. -/
def sha256Compress (h : List Nat) (block : List Nat) : List Nat :=
  let w := msgSchedule (wordsOfBytes block)
  let s := (List.range 64).foldl
    (fun (st : List Nat) t =>
      match st with
      | [a, b, c, d, e, f, g, hh] =>
        let t1 := w32 (hh + bigSigma1 e + shaCh e f g + sha256K.getD t 0 + w.getD t 0)
        let t2 := w32 (bigSigma0 a + shaMaj a b c)
        [w32 (t1 + t2), a, b, c, w32 (d + t1), e, f, g]
      | other => other)
    h
  List.zipWith (fun x y => w32 (x + y)) h s

/-- Cuts a list into 64-byte chunks (the fuel covers every input since
every step consumes 64 bytes of a non-empty list). -/
def chunksOf64 : Nat → List Nat → List (List Nat)
  | 0, _ => []
  | fuel + 1, l => if l = [] then [] else l.take 64 :: chunksOf64 fuel (l.drop 64)

/-- SHA-256 of a byte list, as 32 bytes. -/
def sha256 (msg : List Nat) : List Nat :=
  let padded := sha256pad msg
  let final := (chunksOf64 padded.length padded).foldl sha256Compress sha256H0
  (final.map (beBytes 4)).flatten

/-- UTF-8 encoding of one code point. -/
def utf8Bytes (c : Nat) : List Nat :=
  if c < 0x80 then [c]
  else if c < 0x800 then [0xC0 ||| c >>> 6, 0x80 ||| (c &&& 0x3F)]
  else if c < 0x10000 then
    [0xE0 ||| c >>> 12, 0x80 ||| (c >>> 6 &&& 0x3F), 0x80 ||| (c &&& 0x3F)]
  else
    [0xF0 ||| c >>> 18, 0x80 ||| (c >>> 12 &&& 0x3F), 0x80 ||| (c >>> 6 &&& 0x3F),
      0x80 ||| (c &&& 0x3F)]

/-- UTF-8 bytes of a string (`str::as_bytes`). -/
def stringBytes (s : String) : List Nat :=
  (s.data.map (fun ch => utf8Bytes ch.toNat)).flatten

/-- `Function` (src/function.rs lines 29-45); a param is again a
`(name, kind)` pair. -/
structure AbiFunction where
  abiVersion : AbiVersion
  name : String
  header : List (String × ParamType)
  inputs : List (String × ParamType)
  outputs : List (String × ParamType)
  inputId : Nat
  outputId : Nat

/-- `Function::get_function_signature` (lines 96-122): the header type
signatures are included before the inputs only for ABI major version 1. -/
def getFunctionSignature (f : AbiFunction) : String :=
  let inputTypes :=
    (if f.abiVersion.major = 1 then f.header.map (fun p => typeSignature p.2) else []) ++
      f.inputs.map (fun p => typeSignature p.2)
  f.name ++ "(" ++ String.intercalate "," inputTypes ++ ")(" ++
    String.intercalate "," (f.outputs.map (fun p => typeSignature p.2)) ++ ")v" ++
    toString f.abiVersion.major

/-- `Function::calc_function_id` (lines 124-137): the first 4 bytes of the
SHA-256 of the signature, read as a big-endian `u32`. -/
def calcFunctionId (signature : String) : Nat :=
  let h := sha256 (stringBytes signature)
  h.getD 0 0 * 16777216 + h.getD 1 0 * 65536 + h.getD 2 0 * 256 + h.getD 3 0

/-- `Function::get_function_id`. -/
def getFunctionId (f : AbiFunction) : Nat :=
  calcFunctionId (getFunctionSignature f)

/-- `SerdeFunction`: the parsed JSON shape of a function, with an optional
explicit id. -/
structure SerdeFunction where
  name : String
  inputs : List (String × ParamType)
  outputs : List (String × ParamType)
  id : Option Nat

/-- `Function::from_serde` (lines 49-68): without an explicit id the
derived id gets its most significant bit cleared for inputs and set for
outputs. -/
def fromSerde (abi : AbiVersion) (sf : SerdeFunction)
    (header : List (String × ParamType)) : AbiFunction :=
  let base : AbiFunction :=
    ⟨abi, sf.name, header, sf.inputs, sf.outputs, 0, 0⟩
  match sf.id with
  | some id => { base with inputId := id, outputId := id }
  | none =>
    let id := getFunctionId base
    { base with inputId := id &&& 0x7FFFFFFF, outputId := id ||| 0x80000000 }

/-- The error kinds of `AbiError` that the modelled operations can raise.
Distinct cell-level failures of the external cell library are collapsed
into `cellError`. -/
inductive AbiError where
  | invalidData
  | invalidInputData
  | wrongDataFormat
  | invalidParameterValue
  | invalidParameterLength
  | wrongParameterType
  | addressRequired
  | cellError
deriving DecidableEq

/-- `Function::fill_sign` (src/function.rs lines 520-559).  For ABI 1.0
the signature bytes (with the public key appended when supplied) become a
fresh cell prepended as the first reference; otherwise a `1` bit plus the
signature bits (or a single `0` bit without a signature) are prepended to
the body.  The `public_key` argument is not used in the non-1.0 branch. -/
def fillSign (abi : AbiVersion) (signature publicKey : Option (List Nat))
    (b : Builder) : Option Builder :=
  if abi = ABI_VERSION_1_0 then
    if referencesCapacity - b.refs.length = 0 then none
    else
      match signature with
      | some sig =>
        let sig2 := sig ++ (match publicKey with | some pk => pk | none => [])
        match Builder.new.appendRaw (bytesToBits sig2) with
        | none => none
        | some sigBuilder => b.checkedPrependReference sigBuilder.intoCell
      | none => b.checkedPrependReference (Cell.mk [] [])
  else
    let sign? : Option Builder :=
      match signature with
      | some sig =>
        match Builder.new.appendRaw [true] with
        | none => none
        | some sb => sb.appendRaw (bytesToBits sig)
      | none => Builder.new.appendRaw [false]
    match sign? with
    | none => none
    | some signBuilder => b.prependBuilder signBuilder

/-- The signature placeholder of `Function::create_unsigned_call` (lines
365-407): the placeholder value, whether a reference must be stripped
afterwards, and how many bits must be stripped afterwards. -/
def signPlaceholder (abi : AbiVersion) (reserveSign : Bool) :
    SerializedValue × Bool × Nat :=
  let (data, removeRef, removeBits) :=
    if abi.major = 1 then
      ((⟨[], [Cell.mk [] []]⟩ : Builder), true, 0)
    else if reserveSign then
      if abiLe ABI_VERSION_2_3 abi then
        ((⟨List.replicate (maxBitSize .address abi) false, []⟩ : Builder), false,
          maxBitSize .address abi)
      else
        ((⟨true :: List.replicate 512 false, []⟩ : Builder), false, 1 + 512)
    else ((⟨[false], []⟩ : Builder), false, 1)
  (⟨data,
      if abiLe ABI_VERSION_2_3 abi then maxBitSize .address abi else 1 + 512,
      if removeRef then 1 else 0⟩,
    removeRef, removeBits)

/-- The body-building part of `Function::create_unsigned_call` (lines
362-423): the already-encoded header cells are given as `headerCells` and
the serialized inputs as `inputCells` (the structural `types_check` and
the per-value serialization happen before this point in the source); for
an external call the signature placeholder is inserted first, the whole
sequence is packed into a chain, and the placeholder's reference / bits
are stripped from the root cell again. -/
def buildStripped (abi : AbiVersion) (headerCells inputCells : List SerializedValue)
    (internal reserveSign : Bool) : Option Builder :=
  let (ph, removeRef, removeBits) := signPlaceholder abi reserveSign
  let cells := if internal then headerCells else ph :: headerCells
  match packCellsInChain (cells ++ inputCells) abi with
  | none => none
  | some builder =>
    if internal then some builder
    else
      let refs? : Option (List Cell) :=
        if removeRef then
          match builder.refs with
          | [] => none
          | _ :: rs => some rs
        else some builder.refs
      match refs? with
      | none => none
      | some refs' =>
        if removeBits ≠ 0 then
          if builder.bits.length < removeBits then none
          else some ⟨builder.bits.drop removeBits, refs'⟩
        else some ⟨builder.bits, refs'⟩

/-- `Function::create_unsigned_call` (lines 348-435), with the cell
representation hash of the external cell library abstracted as `H` and the
destination address given as its serialized builder
(`MsgAddressInt::write_to_new_cell`).  Returns the stripped body and the
digest to sign: for ABI >= 2.3 with signature reservation the address
cell is prepended to the stripped body before hashing, and a missing
address is an `AddressRequired` error. -/
def createUnsignedCall (H : Cell → Nat) (abi : AbiVersion)
    (headerCells inputCells : List SerializedValue) (internal reserveSign : Bool)
    (address : Option Builder) : Except AbiError (Builder × Nat) :=
  match buildStripped abi headerCells inputCells internal reserveSign with
  | none => .error .cellError
  | some builder =>
    if abiLe ABI_VERSION_2_3 abi && reserveSign then
      match address with
      | none => .error .addressRequired
      | some addressBuilder =>
        match addressBuilder.appendBuilder builder with
        | none => .error .cellError
        | some comb => .ok (builder, H comb.intoCell)
    else .ok (builder, H builder.intoCell)

/-- `MapKeyTokenValue` (src/token/mod.rs lines 64-69); the parsed address
is kept abstract (its parser is supplied as a function where needed). -/
inductive MapKeyTokenValue where
  | uintKey (value : UintValue)
  | intKey (value : IntValue)
  | addrKey (addr : String)
deriving DecidableEq

/-- `Tokenizer::check_int_size` (src/token/tokenizer.rs lines 293-305):
`BigInt::bits` counts magnitude bits, so `-2^n` (the only negative number
whose bit count differs from its successor's) is allowed to use exactly
`size` bits, every other number strictly fewer. -/
def checkIntSize (number : Int) (size : Nat) : Bool :=
  if number < 0 ∧ intBits number ≠ intBits (number + 1) then
    decide (intBits number ≤ size)
  else
    decide (intBits number < size)

/-- `Tokenizer::check_uint_size` (lines 307-310). -/
def checkUintSize (number : Nat) (size : Nat) : Bool :=
  decide (natBits number ≤ size)

/-- Value of a (hexadecimal) digit character. -/
def hexDigitVal (c : Char) : Option Nat :=
  if decide ('0' ≤ c) ∧ decide (c ≤ '9') then some (c.toNat - '0'.toNat)
  else if decide ('a' ≤ c) ∧ decide (c ≤ 'f') then some (c.toNat - 'a'.toNat + 10)
  else if decide ('A' ≤ c) ∧ decide (c ≤ 'F') then some (c.toNat - 'A'.toNat + 10)
  else none

/-- Value of a digit character in the given radix. -/
def digitVal (radix : Nat) (c : Char) : Option Nat :=
  match hexDigitVal c with
  | some d => if d < radix then some d else none
  | none => none

def parseDigitsAux (radix : Nat) : List Char → Nat → Option Nat
  | [], acc => some acc
  | c :: rest, acc =>
    match digitVal radix c with
    | none => none
    | some d => parseDigitsAux radix rest (acc * radix + d)

/-- `num_bigint` digit-string parsing (`parse_bytes`): empty input or any
non-digit character yields `None`. -/
def parseDigits (radix : Nat) (cs : List Char) : Option Nat :=
  if cs = [] then none else parseDigitsAux radix cs 0

/-- `read_uint_string` (src/token/tokenizer.rs lines 591-597): `0x`-hex or
decimal; the `starts_with` tests are expressed as a pattern match on the
character list. -/
def readUintString (s : String) : Option Nat :=
  match s.data with
  | '0' :: 'x' :: rest => parseDigits 16 rest
  | cs => parseDigits 10 cs

/-- `read_int_string` (lines 580-589): `-0x` hex, `0x` hex, or signed
decimal (the decimal parser of `BigInt` accepts a leading minus). -/
def readIntString (s : String) : Option Int :=
  match s.data with
  | '-' :: '0' :: 'x' :: rest => (parseDigits 16 rest).map (fun n => -(n : Int))
  | '0' :: 'x' :: rest => (parseDigits 16 rest).map (fun n => (n : Int))
  | '-' :: rest => (parseDigits 10 rest).map (fun n => -(n : Int))
  | cs => (parseDigits 10 cs).map (fun n => (n : Int))

/-- `Tokenizer::tokenize_map_key_parameter` (lines 32-83): integer keys
are range-checked against `size + 1` bits; address keys go through the
external address parser `parseAddress`; any other key type is invalid. -/
def tokenizeMapKeyParameter (parseAddress : String → Option String)
    (param : ParamType) (value : String) : Except AbiError MapKeyTokenValue :=
  match param with
  | .int size =>
    match readIntString value with
    | none => .error .invalidParameterValue
    | some number =>
      if !(checkIntSize number (size + 1)) then .error .invalidParameterValue
      else .ok (.intKey ⟨number, size⟩)
  | .uint size =>
    match readUintString value with
    | none => .error .invalidParameterValue
    | some number =>
      if !(checkUintSize number (size + 1)) then .error .invalidParameterValue
      else .ok (.uintKey ⟨number, size⟩)
  | .address =>
    match parseAddress value with
    | none => .error .wrongDataFormat
    | some addr => .ok (.addrKey addr)
  | _ => .error .invalidData

/-- The fragment of `serde_json::Value` the modelled tokenizer paths
consume; `jnum` stands for a JSON non-negative integer (one on which
`as_u64` succeeds). -/
inductive Json where
  | null
  | jbool (b : Bool)
  | jnum (n : Nat)
  | jstr (s : String)

/-- `Tokenizer::read_uint` (lines 252-271). -/
def readUint (value : Json) : Except AbiError Nat :=
  match value with
  | .jnum n => .ok n
  | .jstr s =>
    match readUintString s with
    | some n => .ok n
    | none => .error .invalidParameterValue
  | _ => .error .wrongDataFormat

/-- `Tokenizer::read_int` (lines 230-249); a JSON integer is within `i64`
in the source, which the `jnum` fragment represents as a natural number. -/
def readInt (value : Json) : Except AbiError Int :=
  match value with
  | .jnum n => .ok (n : Int)
  | .jstr s =>
    match readIntString s with
    | some n => .ok n
    | none => .error .invalidParameterValue
  | _ => .error .wrongDataFormat

/-- `Tokenizer::tokenize_uint` (lines 318-331): reads the number and
range-checks it against exactly `size` bits. -/
def tokenizeUint (size : Nat) (value : Json) : Except AbiError TokenValue :=
  match readUint value with
  | .error e => .error e
  | .ok number =>
    if !(checkUintSize number size) then .error .invalidParameterValue
    else .ok (.uint ⟨number, size⟩)

/-- `Tokenizer::tokenize_int` (lines 333-346). -/
def tokenizeInt (size : Nat) (value : Json) : Except AbiError TokenValue :=
  match readInt value with
  | .error e => .error e
  | .ok number =>
    if !(checkIntSize number size) then .error .invalidParameterValue
    else .ok (.int ⟨number, size⟩)

/-- The cell reached by repeatedly following the first reference: in the
reverse-built chains of `bytesToCells` every cell has at most one
reference, so this is the first-created (deepest) cell of the chain. -/
def Cell.lastDescendant : Cell → Cell
  | .mk bits [] => .mk bits []
  | .mk _ (c :: _) => c.lastDescendant

/-- The chain shape produced by the linking step of
`pack_cells_into_chain`, listed from the root: every non-terminal cell
carries its own packed bits and references followed by exactly one extra
final reference holding the successor cell, and the terminal cell is its
packed builder unchanged. -/
def chainOk : Cell → List SerializedValue → Prop
  | _, [] => False
  | c, [x] => c = x.data.intoCell
  | c, x :: y :: rest =>
    c.bits = x.data.bits ∧
      ∃ c', c.refs = x.data.refs ++ [c'] ∧ chainOk c' (y :: rest)

/-!
Theorems.  First a set of shared lemmas about the cell invariant and the
packing loop, then one theorem (with witness or counterexample) per
checked claim.
-/

theorem Cell.okList_append (l1 l2 : List Cell) :
    Cell.okList (l1 ++ l2) = (Cell.okList l1 && Cell.okList l2) := by
  induction l1 with
  | nil => simp [Cell.okList]
  | cons c cs ih => simp [Cell.okList, ih, Bool.and_assoc]

theorem Builder.appendBuilder_okDeep {b x d : Builder}
    (h1 : b.okDeep = true) (h2 : x.okDeep = true)
    (h : b.appendBuilder x = some d) : d.okDeep = true := by
  unfold Builder.appendBuilder at h
  split at h
  · rename_i hc
    cases h
    simp only [Builder.okDeep, Bool.and_eq_true, decide_eq_true_eq,
      Cell.okList_append, List.length_append] at h1 h2 ⊢
    exact ⟨⟨hc.1, hc.2⟩, h1.2, h2.2⟩
  · cases h

theorem Builder.checkedAppendReference_okDeep {b : Builder} {c : Cell} {d : Builder}
    (h1 : b.okDeep = true) (hc : c.ok = true)
    (h : b.checkedAppendReference c = some d) : d.okDeep = true := by
  unfold Builder.checkedAppendReference at h
  split at h
  · rename_i hlt
    cases h
    simp only [Builder.okDeep, Bool.and_eq_true, decide_eq_true_eq] at h1
    simp only [Builder.okDeep, Bool.and_eq_true, decide_eq_true_eq, Cell.okList_append,
      Cell.okList, List.length_append, List.length_cons, List.length_nil, Bool.and_true]
    exact ⟨⟨h1.1.1, by omega⟩, h1.2, hc⟩
  · cases h

theorem Builder.intoCell_ok {b : Builder} (h : b.okDeep = true) :
    b.intoCell.ok = true := by
  rcases b with ⟨bits, refs⟩
  simpa [Builder.intoCell, Cell.ok, Builder.okDeep] using h

theorem packCellsAux_okDeep (abi : AbiVersion) :
    ∀ (values acc L : List SerializedValue),
      (∀ v ∈ values, v.data.okDeep = true) →
      (∀ v ∈ acc, v.data.okDeep = true) →
      packCellsAux abi values acc = some L →
      ∀ v ∈ L, v.data.okDeep = true := by
  intro values
  induction values with
  | nil =>
    intro acc L _ hacc h
    simp only [packCellsAux] at h
    cases h
    exact hacc
  | cons value rest ih =>
    intro acc L hvals hacc h
    have hv : value.data.okDeep = true := hvals value (by simp)
    have hrest : ∀ v ∈ rest, v.data.okDeep = true := fun v hm => hvals v (by simp [hm])
    match acc with
    | [] => simp [packCellsAux] at h
    | builder :: sealed =>
      have hb : builder.data.okDeep = true := hacc builder (by simp)
      have hsealed : ∀ v ∈ sealed, v.data.okDeep = true :=
        fun v hm => hacc v (by simp [hm])
      simp only [packCellsAux] at h
      split at h
      · refine ih _ _ hrest ?_ h
        intro v hm
        simp only [List.mem_cons] at hm
        rcases hm with rfl | rfl | hm
        · exact hv
        · exact hb
        · exact hsealed v hm
      · split at h
        · split at h
          · cases hab : builder.data.appendBuilder value.data with
            | none => rw [hab] at h; cases h
            | some d =>
              rw [hab] at h
              refine ih _ _ hrest ?_ h
              intro v hm
              simp only [List.mem_cons] at hm
              rcases hm with rfl | hm
              · exact Builder.appendBuilder_okDeep hb hv hab
              · exact hsealed v hm
          · refine ih _ _ hrest ?_ h
            intro v hm
            simp only [List.mem_cons] at hm
            rcases hm with rfl | rfl | hm
            · exact hv
            · exact hb
            · exact hsealed v hm
        · cases hab : builder.data.appendBuilder value.data with
          | none => rw [hab] at h; cases h
          | some d =>
            rw [hab] at h
            refine ih _ _ hrest ?_ h
            intro v hm
            simp only [List.mem_cons] at hm
            rcases hm with rfl | hm
            · exact Builder.appendBuilder_okDeep hb hv hab
            · exact hsealed v hm

theorem linkChainAux_okDeep :
    ∀ (rest : List SerializedValue) (x : SerializedValue) (b : Builder),
      x.data.okDeep = true →
      (∀ v ∈ rest, v.data.okDeep = true) →
      linkChainAux x rest = some b →
      b.okDeep = true := by
  intro rest
  induction rest with
  | nil =>
    intro x b hx _ h
    simp only [linkChainAux] at h
    cases h
    exact hx
  | cons y rest ih =>
    intro x b hx hrest h
    have hy : y.data.okDeep = true := hrest y (by simp)
    simp only [linkChainAux] at h
    cases hd : y.data.checkedAppendReference x.data.intoCell with
    | none => rw [hd] at h; cases h
    | some d =>
      rw [hd] at h
      exact ih _ _
        (Builder.checkedAppendReference_okDeep hy (Builder.intoCell_ok hx) hd)
        (fun v hm => hrest v (by simp [hm])) h

/-- C1: for ABI version >= 2.2, whenever `pack_cells_into_chain` produces
a chain from serialized values respecting the cell-library invariant (as
every value written by `write_to_cells` does), every cell of the produced
chain — the root builder and every cell reachable from it, in particular
every chain cell after the continuation references are attached by the
final linking step — holds at most 1023 data bits and at most 4
references. -/
theorem c1_envelope_soundness (abi : AbiVersion) (values : List SerializedValue)
    (b : Builder) (h22 : abiLe ABI_VERSION_2_2 abi = true)
    (hvals : ∀ v ∈ values, v.data.okDeep = true)
    (hpack : packCellsInChain values abi = some b) :
    b.okDeep = true := by
  unfold packCellsInChain at hpack
  cases haux : packCellsAux abi values [SerializedValue.empty] with
  | none => rw [haux] at hpack; cases hpack
  | some acc =>
    rw [haux] at hpack
    have hacc : ∀ v ∈ acc, v.data.okDeep = true :=
      packCellsAux_okDeep abi values _ acc hvals
        (by
          intro v hm
          simp only [List.mem_singleton] at hm
          subst hm
          decide) haux
    cases acc with
    | nil => simp [linkChain] at hpack
    | cons x rest =>
      simp only [linkChain] at hpack
      exact linkChainAux_okDeep rest x b (hacc x (by simp))
        (fun v hm => hacc v (by simp [hm])) hpack

theorem c1_envelope_soundness_witness :
    Builder.okDeep
      ⟨List.replicate 1000 false, [Cell.mk (List.replicate 100 false) []]⟩ = true :=
  c1_envelope_soundness ABI_VERSION_2_2
    [⟨⟨List.replicate 1000 false, []⟩, 1000, 0⟩, ⟨⟨List.replicate 100 false, []⟩, 100, 0⟩]
    ⟨List.replicate 1000 false, [Cell.mk (List.replicate 100 false) []]⟩
    (by decide) (by decide) (by decide)

theorem linkChainAux_chainOk :
    ∀ (rest : List SerializedValue) (x : SerializedValue)
      (M : List SerializedValue) (b : Builder),
      chainOk x.data.intoCell M →
      linkChainAux x rest = some b →
      chainOk b.intoCell (rest.reverse ++ M) := by
  intro rest
  induction rest with
  | nil =>
    intro x M b hx h
    simp only [linkChainAux] at h
    cases h
    simpa using hx
  | cons y rest ih =>
    intro x M b hx h
    simp only [linkChainAux] at h
    cases hd : y.data.checkedAppendReference x.data.intoCell with
    | none => rw [hd] at h; cases h
    | some d =>
      rw [hd] at h
      have hM : M ≠ [] := by
        intro hMnil
        rw [hMnil] at hx
        exact hx.elim
      have hd2 : d = ⟨y.data.bits, y.data.refs ++ [x.data.intoCell]⟩ := by
        unfold Builder.checkedAppendReference at hd
        split at hd
        · cases hd; rfl
        · cases hd
      have hy : chainOk (⟨d, y.maxBits, y.maxRefs⟩ : SerializedValue).data.intoCell
          (y :: M) := by
        cases M with
        | nil => exact absurd rfl hM
        | cons m M' =>
          subst hd2
          exact ⟨rfl, x.data.intoCell, rfl, hx⟩
      have := ih ⟨d, y.maxBits, y.maxRefs⟩ (y :: M) b hy h
      simpa [List.append_assoc] using this

/-- C8: for ABI version 1.0 every chain produced by
`pack_cells_into_chain` satisfies the continuation discipline: each
non-terminal cell carries exactly its packed value bits and references
followed by one final reference slot holding the successor — the last
reference of a non-terminal cell is always the continuation, never a
value. -/
theorem c8_continuation_discipline (values : List SerializedValue) (b : Builder)
    (hpack : packCellsInChain values ABI_VERSION_1_0 = some b) :
    ∃ L, packCellsAux ABI_VERSION_1_0 values [SerializedValue.empty] = some L ∧
      chainOk b.intoCell L.reverse := by
  unfold packCellsInChain at hpack
  cases haux : packCellsAux ABI_VERSION_1_0 values [SerializedValue.empty] with
  | none => rw [haux] at hpack; cases hpack
  | some acc =>
    rw [haux] at hpack
    cases acc with
    | nil => simp [linkChain] at hpack
    | cons x rest =>
      refine ⟨x :: rest, rfl, ?_⟩
      simp only [linkChain] at hpack
      have hx : chainOk x.data.intoCell [x] := rfl
      have := linkChainAux_chainOk rest x [x] b hx hpack
      simpa [List.reverse_cons] using this

theorem c8_continuation_discipline_witness :
    ∃ L, packCellsAux ABI_VERSION_1_0
        [⟨⟨List.replicate 1000 true, []⟩, 0, 0⟩, ⟨⟨List.replicate 100 true, []⟩, 0, 0⟩]
        [SerializedValue.empty] = some L ∧
      chainOk
        (Builder.intoCell
          ⟨List.replicate 1000 true, [Cell.mk (List.replicate 100 true) []]⟩)
        L.reverse :=
  c8_continuation_discipline
    [⟨⟨List.replicate 1000 true, []⟩, 0, 0⟩, ⟨⟨List.replicate 100 true, []⟩, 0, 0⟩]
    ⟨List.replicate 1000 true, [Cell.mk (List.replicate 100 true) []]⟩
    (by decide)

theorem abiLe_v1_ne_iff {abi : AbiVersion} (h : abiLe ABI_VERSION_1_0 abi = true) :
    (abi ≠ ABI_VERSION_1_0) ↔ abiLt ABI_VERSION_1_0 abi = true := by
  rcases abi with ⟨ma, mi⟩
  simp only [abiLe, abiLt, ABI_VERSION_1_0, decide_eq_true_eq, ne_eq,
    AbiVersion.mk.injEq] at h ⊢
  omega

/-- C2: in `pack_cells_into_chain`, when the next value needs `vr > 0`
references, its bits fit, and `vr` equals exactly the current builder's
free reference count, the value is appended into the current cell if and
only if the ABI version is greater than 1.0 (among versions at least 1.0
this is what the source's test `abi_version != ABI_VERSION_1_0` means),
the references needed by all remaining values sum to 0, and the remaining
values' total bits plus the value's bits fit in the current cell's free
bits; otherwise a new cell is started — in particular in ABI 1.0 a strict
fit of references always starts a new cell. -/
theorem c2_strict_ref_fit (abi : AbiVersion) (cur value : SerializedValue)
    (vs rest : List SerializedValue)
    (h10 : abiLe ABI_VERSION_1_0 abi = true)
    (hfitBits : valueBits abi value ≤ remainingBits abi cur)
    (hfitRefs : valueRefs abi value ≤ remainingRefs abi cur)
    (hpos : 0 < valueRefs abi value)
    (hstrict : remainingRefs abi cur = valueRefs abi value) :
    packCellsAux abi (value :: vs) (cur :: rest) =
      if abiLt ABI_VERSION_1_0 abi = true ∧
          ((getRemaining vs abi).1 = 0 ∧
            (getRemaining vs abi).2 + valueBits abi value ≤ remainingBits abi cur) then
        match cur.data.appendBuilder value.data with
        | none => none
        | some d =>
          packCellsAux abi vs
            (⟨d, cur.maxBits + value.maxBits, cur.maxRefs + value.maxRefs⟩ :: rest)
      else packCellsAux abi vs (value :: cur :: rest) := by
  have h1 : ¬(remainingBits abi cur < valueBits abi value ∨
      remainingRefs abi cur < valueRefs abi value) := by omega
  simp only [packCellsAux]
  rw [if_neg h1, if_pos ⟨hpos, hstrict⟩,
    if_congr (and_congr_left' (abiLe_v1_ne_iff h10)) rfl rfl]

theorem c2_strict_ref_fit_witness :
    packCellsAux ABI_VERSION_2_2
      [⟨⟨[], []⟩, 0, 2⟩] [⟨⟨[], []⟩, 0, 2⟩] =
      if abiLt ABI_VERSION_1_0 ABI_VERSION_2_2 = true ∧
          ((getRemaining [] ABI_VERSION_2_2).1 = 0 ∧
            (getRemaining [] ABI_VERSION_2_2).2 +
              valueBits ABI_VERSION_2_2 ⟨⟨[], []⟩, 0, 2⟩ ≤
              remainingBits ABI_VERSION_2_2 ⟨⟨[], []⟩, 0, 2⟩) then
        match (Builder.mk [] []).appendBuilder ⟨[], []⟩ with
        | none => none
        | some d =>
          packCellsAux ABI_VERSION_2_2 []
            (⟨d, 0 + 0, 2 + 2⟩ :: [])
      else packCellsAux ABI_VERSION_2_2 [] [⟨⟨[], []⟩, 0, 2⟩, ⟨⟨[], []⟩, 0, 2⟩] :=
  c2_strict_ref_fit ABI_VERSION_2_2 ⟨⟨[], []⟩, 0, 2⟩ ⟨⟨[], []⟩, 0, 2⟩ [] []
    (by decide) (by decide) (by decide) (by decide) (by decide)

theorem lastDescendant_mk_nil (bits : List Bool) :
    Cell.lastDescendant (.mk bits []) = .mk bits [] := by
  simp [Cell.lastDescendant]

theorem lastDescendant_mk_cons (bits : List Bool) (c : Cell) (cs : List Cell) :
    Cell.lastDescendant (.mk bits (c :: cs)) = c.lastDescendant := by
  simp [Cell.lastDescendant]

theorem lastDescendant_refs_ne_nil (bits bits' : List Bool) (refs : List Cell)
    (h : refs ≠ []) :
    Cell.lastDescendant (.mk bits refs) = Cell.lastDescendant (.mk bits' refs) := by
  cases refs with
  | nil => exact absurd rfl h
  | cons c cs => rw [lastDescendant_mk_cons, lastDescendant_mk_cons]


theorem bytesToCellsLoop_lastDescendant (data : List Nat) :
    ∀ (fuel len cap : Nat) (B : Builder) (c t : Cell),
      B.refs ≠ [] →
      B.intoCell.lastDescendant = t →
      bytesToCellsLoop data fuel len cap B = some c →
      c.lastDescendant = t := by
  intro fuel
  induction fuel with
  | zero =>
    intro len cap B c t _ hlast h
    simp only [bytesToCellsLoop] at h
    split at h
    · cases h; exact hlast
    · cases h
  | succ fuel ih =>
    intro len cap B c t href hlast h
    simp only [bytesToCellsLoop] at h
    split at h
    · cases h; exact hlast
    · cases hap : B.appendRaw (bytesToBits ((data.drop (len - cap)).take cap)) with
      | none => rw [hap] at h; cases h
      | some b1 =>
        rw [hap] at h
        have h2 : bytesToCellsLoop data fuel (len - cap)
            (min (bitsCapacity / 8) (len - cap))
            (if 0 < len - cap then (⟨[], [b1.intoCell]⟩ : Builder) else b1) = some c := h
        have hb1 : b1.refs = B.refs := by
          unfold Builder.appendRaw at hap
          split at hap
          · cases hap; rfl
          · cases hap
        have hlast1 : b1.intoCell.lastDescendant = t := by
          rw [show b1.intoCell = Cell.mk b1.bits B.refs by rw [Builder.intoCell, hb1]]
          rw [lastDescendant_refs_ne_nil b1.bits B.bits B.refs href]
          exact hlast
        by_cases hrem : 0 < len - cap
        · rw [if_pos hrem] at h2
          refine ih _ _ _ c t (by simp) ?_ h2
          rw [show (Builder.intoCell ⟨[], [b1.intoCell]⟩) = Cell.mk [] [b1.intoCell]
            from rfl]
          rw [lastDescendant_mk_cons]
          exact hlast1
        · rw [if_neg hrem] at h2
          exact ih _ _ _ c t (hb1 ▸ href) hlast1 h2

/-- C7: for every non-empty byte string, the bytes/string serializer
builds a reverse-linked chain of sub-cells; the first-built cell of that
chain — the cell reached by following the references to the end, holding
the trailing bytes of the data — holds `len mod 127` bytes in ABI >= 2.0
(127 bytes when the remainder is zero) and `min(127, len)` bytes in
ABI 1.0; and `write_bytes` attaches the whole chain as a single reference
from the field's cell. -/
theorem c7_bytes_chain (data : List Nat) (abi : AbiVersion) (c : Cell)
    (hlen : 0 < data.length)
    (hc : bytesToCells data abi = some c) :
    writeBytes data abi = some ⟨[], [c]⟩ ∧
      c.lastDescendant =
        Cell.mk
          (bytesToBits (data.drop (data.length -
            (if abi = ABI_VERSION_1_0 then min 127 data.length
             else if data.length % 127 = 0 then 127 else data.length % 127)))) [] := by
  constructor
  · unfold writeBytes
    rw [hc]
    simp [Builder.checkedAppendReference, Builder.new, referencesCapacity]
  · have hcell : bitsCapacity / 8 = 127 := by norm_num [bitsCapacity]
    obtain ⟨n, hn⟩ : ∃ n, data.length = n + 1 := ⟨data.length - 1, by omega⟩
    unfold bytesToCells at hc
    rw [hcell, hn] at hc
    rw [hn]
    set cap : Nat :=
      (if abi = ABI_VERSION_1_0 then min 127 (n + 1)
       else if (n + 1) % 127 = 0 then 127 else (n + 1) % 127) with hcapdef
    have hcap_pos : 0 < cap := by
      rw [hcapdef]
      split
      · exact lt_min (by norm_num) (by omega)
      · split
        · norm_num
        · rename_i hne
          omega
    have hcap_le : cap ≤ n + 1 := by
      rw [hcapdef]
      split
      · exact min_le_right _ _
      · split
        · rename_i hmod
          exact Nat.le_of_dvd (by omega) (Nat.dvd_of_mod_eq_zero hmod)
        · exact Nat.mod_le _ _
    have htake : (data.drop (n + 1 - cap)).take cap = data.drop (n + 1 - cap) := by
      apply List.take_of_length_le
      rw [List.length_drop]
      omega
    simp only [bytesToCellsLoop] at hc
    rw [if_neg (by omega : ¬(n + 1 = 0))] at hc
    cases hap : Builder.new.appendRaw (bytesToBits ((data.drop (n + 1 - cap)).take cap)) with
    | none => rw [hap] at hc; cases hc
    | some b1 =>
      rw [hap] at hc
      have hc2 : bytesToCellsLoop data (n + 1) (n + 1 - cap)
          (min (bitsCapacity / 8) (n + 1 - cap))
          (if 0 < n + 1 - cap then (⟨[], [b1.intoCell]⟩ : Builder) else b1) = some c := hc
      have hb1 : b1 = ⟨bytesToBits ((data.drop (n + 1 - cap)).take cap), []⟩ := by
        unfold Builder.appendRaw at hap
        split at hap
        · cases hap; rw [Builder.new]; simp
        · cases hap
      by_cases hrem : 0 < n + 1 - cap
      · rw [if_pos hrem] at hc2
        have hres := bytesToCellsLoop_lastDescendant data _ _ _ _ c
          (Cell.mk (bytesToBits ((data.drop (n + 1 - cap)).take cap)) [])
          (by simp) ?_ hc2
        · rw [hres, htake]
        · rw [show (Builder.intoCell ⟨[], [b1.intoCell]⟩) = Cell.mk [] [b1.intoCell]
            from rfl]
          rw [lastDescendant_mk_cons, hb1]
          exact lastDescendant_mk_nil _
      · rw [if_neg hrem] at hc2
        rw [show n + 1 - cap = 0 by omega] at hc2
        simp only [bytesToCellsLoop, if_true] at hc2
        cases hc2
        rw [hb1]
        rw [show (Builder.intoCell ⟨bytesToBits ((data.drop (n + 1 - cap)).take cap), []⟩) =
          Cell.mk (bytesToBits ((data.drop (n + 1 - cap)).take cap)) [] from rfl]
        rw [lastDescendant_mk_nil]
        rw [htake]

theorem c7_bytes_chain_witness :
    writeBytes [1, 2, 3] ABI_VERSION_2_2 =
        some ⟨[], [Cell.mk (bytesToBits [1, 2, 3]) []]⟩ ∧
      (Cell.mk (bytesToBits [1, 2, 3]) []).lastDescendant =
        Cell.mk
          (bytesToBits ([1, 2, 3].drop (([1, 2, 3] : List Nat).length -
            (if ABI_VERSION_2_2 = ABI_VERSION_1_0 then min 127 ([1, 2, 3] : List Nat).length
             else if ([1, 2, 3] : List Nat).length % 127 = 0 then 127
             else ([1, 2, 3] : List Nat).length % 127)))) [] :=
  c7_bytes_chain [1, 2, 3] ABI_VERSION_2_2 (Cell.mk (bytesToBits [1, 2, 3]) [])
    (by decide) (by decide)

theorem byteBits_length (x : Nat) : (byteBits x).length = 8 := by
  simp [byteBits]

theorem bytesToBits_cons (a : Nat) (l : List Nat) :
    bytesToBits (a :: l) = byteBits a ++ bytesToBits l := by
  simp [bytesToBits]

theorem bytesToBits_length (bs : List Nat) : (bytesToBits bs).length = 8 * bs.length := by
  induction bs with
  | nil => simp [bytesToBits]
  | cons a l ih =>
    rw [bytesToBits_cons, List.length_append, byteBits_length, ih, List.length_cons]
    ring

/-- C6 counterexample: the claim's largeness test `max_bit_size + 1 >= 1023`
holds for a tuple of worst-case size 1022 bits, yet the code serializes a
present optional of that type inline — the produced builder carries no
reference at all (and 1023 data bits), instead of the claimed presence bit
plus reference. -/
theorem c6_counterexample :
    1023 ≤ 1 +
        maxBitSize
          (.tuple [("a", .uint 256), ("b", .uint 256), ("c", .uint 256), ("d", .uint 254)])
          ABI_VERSION_2_2 ∧
      (writeOptional
          (.tuple [("a", .uint 256), ("b", .uint 256), ("c", .uint 256), ("d", .uint 254)])
          (some (.tuple [("a", .uint ⟨0, 256⟩), ("b", .uint ⟨0, 256⟩),
            ("c", .uint ⟨0, 256⟩), ("d", .uint ⟨0, 254⟩)]))
          ABI_VERSION_2_2).map (fun b => (b.bits.length, b.refs.length)) =
        some (1023, 0) :=
  ⟨by decide, by decide⟩

/-- C6 (amended): `write_optional` serializes a present value of inner
type `T` as a presence bit 1 followed by a reference to the inner packed
chain exactly when `is_large_optional` holds, i.e. when
`max_bit_size(T) >= 1023` or `max_refs_count(T) >= 4` (not the claimed
`max_bit_size(T) + 1 >= 1023` / `max_refs_count(T) + 1 > 4`); otherwise
the presence bit 1 is prepended to the inner chain inlined in the same
cell; an absent value is a single 0 bit. -/
theorem c6_write_optional (pt : ParamType) (v : TokenValue) (abi : AbiVersion) :
    writeOptional pt none abi = some ⟨[false], []⟩ ∧
    (∀ pb, packIntoChain v abi = some pb →
      writeOptional pt (some v) abi =
        if isLargeOptional pt abi then some ⟨[true], [pb.intoCell]⟩
        else pb.prependRaw [true]) := by
  constructor
  · simp [writeOptional, Builder.new, Builder.appendRaw, bitsCapacity]
  · intro pb hpb
    have hpb' : (match writeToCells v abi with
        | none => none
        | some cs => packCellsInChain cs abi) = some pb := hpb
    by_cases hl : isLargeOptional pt abi
    · rw [if_pos hl]
      simp only [writeOptional]
      rw [if_pos hl, hpb']
      simp [Builder.checkedAppendReference, referencesCapacity]
    · rw [if_neg hl]
      simp only [writeOptional]
      rw [if_neg hl, hpb']

theorem c6_write_optional_witness :
    writeOptional .bool none ABI_VERSION_2_2 = some ⟨[false], []⟩ ∧
      writeOptional .bool (some (.bool true)) ABI_VERSION_2_2 =
        (if isLargeOptional .bool ABI_VERSION_2_2 then
          some ⟨[true], [(Builder.mk [true] []).intoCell]⟩
        else (Builder.mk [true] []).prependRaw [true]) :=
  ⟨(c6_write_optional .bool (.bool true) ABI_VERSION_2_2).1,
    (c6_write_optional .bool (.bool true) ABI_VERSION_2_2).2 ⟨[true], []⟩ (by decide)⟩

theorem abiLe_v2_ne_v1 {abi : AbiVersion} (h : abiLe ABI_VERSION_2_0 abi = true) :
    abi ≠ ABI_VERSION_1_0 := by
  rcases abi with ⟨ma, mi⟩
  simp only [abiLe, ABI_VERSION_2_0, ABI_VERSION_1_0, decide_eq_true_eq, ne_eq,
    AbiVersion.mk.injEq] at h ⊢
  omega

/-- C4 counterexample: for ABI 2.0, `fill_sign` with a 64-byte signature
and a supplied 32-byte public key does not produce the claimed
`1 | 512-bit signature | 256-bit public key` layout: the public key is
never written in the non-1.0 branch (the result has 513 bits, not 769). -/
theorem c4_counterexample :
    (fillSign ABI_VERSION_2_0 (some (List.replicate 64 0)) (some (List.replicate 32 0))
        Builder.new).map (fun b => b.bits.length) = some 513 ∧
      ¬(fillSign ABI_VERSION_2_0 (some (List.replicate 64 0)) (some (List.replicate 32 0))
          Builder.new =
        some (Builder.mk
          (true :: (bytesToBits (List.replicate 64 0) ++ bytesToBits (List.replicate 32 0)))
          [])) :=
  ⟨by decide, by decide⟩

/-- C4 (amended): for ABI >= 2.0, after `fill_sign` with a 64-byte
signature the produced cell's first bit is 1 followed by exactly 512 bits
of the signature and then the original body; the public-key argument is
ignored in this branch.  For ABI 1.x the signature with the public key
appended is placed as the new first reference, a single cell of `len*8`
bits. -/
theorem c4_fill_sign (abi : AbiVersion) (sig pk : List Nat) (b b1 : Builder)
    (h20 : abiLe ABI_VERSION_2_0 abi = true) (hsig : sig.length = 64) :
    (∀ b', fillSign abi (some sig) (some pk) b = some b' →
      b'.bits = true :: (bytesToBits sig ++ b.bits) ∧ b'.refs = b.refs ∧
        (bytesToBits sig).length = 512) ∧
    (b1.refs.length < 4 → (sig ++ pk).length * 8 ≤ 1023 →
      fillSign ABI_VERSION_1_0 (some sig) (some pk) b1 =
        some ⟨b1.bits, Cell.mk (bytesToBits (sig ++ pk)) [] :: b1.refs⟩) := by
  have hne : abi ≠ ABI_VERSION_1_0 := abiLe_v2_ne_v1 h20
  have hlen : (bytesToBits sig).length = 512 := by
    rw [bytesToBits_length, hsig]
  constructor
  · intro b' h
    unfold fillSign at h
    rw [if_neg hne] at h
    have h0 : (match (match Builder.new.appendRaw [true] with
        | none => none
        | some sb => sb.appendRaw (bytesToBits sig)) with
      | none => none
      | some signBuilder => b.prependBuilder signBuilder) = some b' := h
    have h1 : Builder.new.appendRaw [true] = some ⟨[true], []⟩ := by decide
    have hsb : (⟨[true], []⟩ : Builder).appendRaw (bytesToBits sig) =
        some ⟨true :: bytesToBits sig, []⟩ := by
      unfold Builder.appendRaw
      rw [if_pos (by simp only [List.length_cons, List.length_nil, hlen, bitsCapacity]; omega)]
      simp
    have hX : (match Builder.new.appendRaw [true] with
        | none => none
        | some sb => sb.appendRaw (bytesToBits sig)) =
        some ⟨true :: bytesToBits sig, []⟩ := by
      rw [h1]; exact hsb
    rw [hX] at h0
    have h2 : b.prependBuilder ⟨true :: bytesToBits sig, []⟩ = some b' := h0
    unfold Builder.prependBuilder at h2
    split at h2
    · cases h2
      refine ⟨?_, ?_, hlen⟩ <;> simp
    · cases h2
  · intro hrefs hbits
    unfold fillSign
    rw [if_pos rfl,
      if_neg (by simp only [referencesCapacity]; omega :
        ¬(referencesCapacity - b1.refs.length = 0))]
    have h1 : Builder.new.appendRaw (bytesToBits (sig ++ pk)) =
        some ⟨bytesToBits (sig ++ pk), []⟩ := by
      unfold Builder.appendRaw
      rw [if_pos (by
        simp only [Builder.new, List.length_nil, bytesToBits_length, bitsCapacity]
        omega)]
      simp [Builder.new]
    have h2 : b1.checkedPrependReference
        (Builder.intoCell ⟨bytesToBits (sig ++ pk), []⟩) =
        some ⟨b1.bits, Cell.mk (bytesToBits (sig ++ pk)) [] :: b1.refs⟩ := by
      unfold Builder.checkedPrependReference
      rw [if_pos (by simp only [referencesCapacity]; omega :
        b1.refs.length < referencesCapacity)]
      rfl
    show (match Builder.new.appendRaw (bytesToBits (sig ++ pk)) with
      | none => none
      | some sigBuilder => b1.checkedPrependReference sigBuilder.intoCell) =
      some ⟨b1.bits, Cell.mk (bytesToBits (sig ++ pk)) [] :: b1.refs⟩
    rw [h1]
    exact h2

theorem c4_fill_sign_witness :
    (∀ b', fillSign ABI_VERSION_2_0 (some (List.replicate 64 0))
        (some (List.replicate 32 0)) Builder.new = some b' →
      b'.bits = true :: (bytesToBits (List.replicate 64 0) ++ Builder.new.bits) ∧
        b'.refs = Builder.new.refs ∧
        (bytesToBits (List.replicate 64 0)).length = 512) ∧
    (Builder.new.refs.length < 4 →
      (List.replicate 64 0 ++ List.replicate 32 0).length * 8 ≤ 1023 →
      fillSign ABI_VERSION_1_0 (some (List.replicate 64 0))
          (some (List.replicate 32 0)) Builder.new =
        some ⟨Builder.new.bits,
          Cell.mk (bytesToBits (List.replicate 64 0 ++ List.replicate 32 0)) []
            :: Builder.new.refs⟩) :=
  c4_fill_sign ABI_VERSION_2_0 (List.replicate 64 0) (List.replicate 32 0)
    Builder.new Builder.new (by decide) (by decide)

/-- C5: for ABI >= 2.3 with signature reservation on an external call,
`create_unsigned_call` fails with `AddressRequired` when no destination
address is supplied (whenever the body itself builds), and when an address
is supplied every returned digest is the representation hash of the cell
obtained by prepending the serialized destination address to the built
body with the signature placeholder stripped. -/
theorem c5_address_prefix_hash (H : Cell → Nat) (abi : AbiVersion)
    (headerCells inputCells : List SerializedValue) (body : Builder)
    (h23 : abiLe ABI_VERSION_2_3 abi = true)
    (hbody : buildStripped abi headerCells inputCells false true = some body) :
    createUnsignedCall H abi headerCells inputCells false true none =
        .error .addressRequired ∧
      (∀ (addrB b : Builder) (h : Nat),
        createUnsignedCall H abi headerCells inputCells false true (some addrB) =
          .ok (b, h) →
        b = body ∧ ∃ comb, addrB.appendBuilder body = some comb ∧ h = H comb.intoCell) := by
  constructor
  · unfold createUnsignedCall
    rw [hbody]
    show (if (abiLe ABI_VERSION_2_3 abi && true) = true then
        (Except.error AbiError.addressRequired : Except AbiError (Builder × Nat))
      else Except.ok (body, H body.intoCell)) = Except.error AbiError.addressRequired
    rw [if_pos (by simp [h23])]
  · intro addrB b h hcall
    unfold createUnsignedCall at hcall
    rw [hbody] at hcall
    have hcall2 : (if (abiLe ABI_VERSION_2_3 abi && true) = true then
        (match addrB.appendBuilder body with
          | none => (Except.error AbiError.cellError : Except AbiError (Builder × Nat))
          | some comb => Except.ok (body, H comb.intoCell))
      else Except.ok (body, H body.intoCell)) = .ok (b, h) := hcall
    rw [if_pos (by simp [h23])] at hcall2
    cases hab : addrB.appendBuilder body with
    | none => rw [hab] at hcall2; cases hcall2
    | some comb =>
      rw [hab] at hcall2
      have hcall3 : (Except.ok (body, H comb.intoCell) :
          Except AbiError (Builder × Nat)) = .ok (b, h) := hcall2
      simp only [Except.ok.injEq, Prod.mk.injEq] at hcall3
      exact ⟨hcall3.1.symm, comb, rfl, hcall3.2.symm⟩

theorem c5_address_prefix_hash_witness :
    createUnsignedCall (fun _ => 0) ABI_VERSION_2_3 [] [] false true none =
        .error .addressRequired ∧
      (∀ (addrB b : Builder) (h : Nat),
        createUnsignedCall (fun _ => 0) ABI_VERSION_2_3 [] [] false true (some addrB) =
          .ok (b, h) →
        b = ⟨[], []⟩ ∧ ∃ comb, addrB.appendBuilder ⟨[], []⟩ = some comb ∧
          h = (fun (_ : Cell) => 0) comb.intoCell) :=
  c5_address_prefix_hash (fun _ => 0) ABI_VERSION_2_3 [] [] ⟨[], []⟩
    (by decide) (by decide)

/-- C3: for every function constructed by `from_serde` without an explicit
id, the canonical signature is
`name(<input type signatures>)(<output type signatures>)v<major>` with the
header type signatures prepended to the inputs exactly when the ABI major
version is 1, `input_id` is the first 4 bytes of the SHA-256 of that
signature read as a big-endian u32 with the most significant bit cleared
(`id &&& 0x7FFFFFFF`), and `output_id` is the same value with the most
significant bit set (`id ||| 0x80000000`). -/
theorem c3_function_id (abi : AbiVersion) (sf : SerdeFunction)
    (header : List (String × ParamType)) (hid : sf.id = none) :
    getFunctionSignature (fromSerde abi sf header) =
        sf.name ++ "(" ++
          String.intercalate ","
            (((if abi.major = 1 then header else []) ++ sf.inputs).map
              (fun p => typeSignature p.2)) ++
          ")(" ++
          String.intercalate "," (sf.outputs.map (fun p => typeSignature p.2)) ++
          ")v" ++ toString abi.major ∧
      (fromSerde abi sf header).inputId =
        calcFunctionId (getFunctionSignature (fromSerde abi sf header)) &&& 0x7FFFFFFF ∧
      (fromSerde abi sf header).outputId =
        calcFunctionId (getFunctionSignature (fromSerde abi sf header)) ||| 0x80000000 := by
  have hsame : fromSerde abi sf header =
      { abiVersion := abi, name := sf.name, header := header, inputs := sf.inputs,
        outputs := sf.outputs,
        inputId :=
          getFunctionId ⟨abi, sf.name, header, sf.inputs, sf.outputs, 0, 0⟩ &&& 0x7FFFFFFF,
        outputId :=
          getFunctionId ⟨abi, sf.name, header, sf.inputs, sf.outputs, 0, 0⟩ ||| 0x80000000 } := by
    unfold fromSerde
    rw [hid]
  have hmap : (if abi.major = 1 then header.map (fun p => typeSignature p.2) else []) =
      (if abi.major = 1 then header else []).map (fun p => typeSignature p.2) := by
    split <;> simp
  have hsig : getFunctionSignature (fromSerde abi sf header) =
      sf.name ++ "(" ++
        String.intercalate ","
          (((if abi.major = 1 then header else []) ++ sf.inputs).map
            (fun p => typeSignature p.2)) ++
        ")(" ++
        String.intercalate "," (sf.outputs.map (fun p => typeSignature p.2)) ++
        ")v" ++ toString abi.major := by
    rw [hsame]
    unfold getFunctionSignature
    rw [List.map_append, ← hmap]
  refine ⟨hsig, ?_, ?_⟩
  · rw [hsame]
    rfl
  · rw [hsame]
    rfl

theorem c3_function_id_witness :
    getFunctionSignature
        (fromSerde ABI_VERSION_2_2
          ⟨"f", [("x", .uint 8)], [("y", .bool)], none⟩ [("t", .time)]) =
        "f" ++ "(" ++
          String.intercalate ","
            (((if ABI_VERSION_2_2.major = 1 then [("t", ParamType.time)] else []) ++
              [("x", ParamType.uint 8)]).map (fun p => typeSignature p.2)) ++
          ")(" ++
          String.intercalate ","
            ([("y", ParamType.bool)].map (fun p => typeSignature p.2)) ++
          ")v" ++ toString ABI_VERSION_2_2.major ∧
      (fromSerde ABI_VERSION_2_2
          ⟨"f", [("x", .uint 8)], [("y", .bool)], none⟩ [("t", .time)]).inputId =
        calcFunctionId
          (getFunctionSignature
            (fromSerde ABI_VERSION_2_2
              ⟨"f", [("x", .uint 8)], [("y", .bool)], none⟩ [("t", .time)])) &&&
          0x7FFFFFFF ∧
      (fromSerde ABI_VERSION_2_2
          ⟨"f", [("x", .uint 8)], [("y", .bool)], none⟩ [("t", .time)]).outputId =
        calcFunctionId
          (getFunctionSignature
            (fromSerde ABI_VERSION_2_2
              ⟨"f", [("x", .uint 8)], [("y", .bool)], none⟩ [("t", .time)])) |||
          0x80000000 :=
  c3_function_id ABI_VERSION_2_2 ⟨"f", [("x", .uint 8)], [("y", .bool)], none⟩
    [("t", .time)] rfl

theorem natBitsAux_le_iff :
    ∀ (fuel n k : Nat), n ≤ fuel → (natBitsAux fuel n ≤ k ↔ n < 2 ^ k) := by
  intro fuel
  induction fuel with
  | zero =>
    intro n k hn
    have hn0 : n = 0 := by omega
    subst hn0
    simp only [natBitsAux]
    constructor
    · intro _; exact pow_pos (by norm_num) k
    · intro _; exact Nat.zero_le k
  | succ fuel ih =>
    intro n k hn
    simp only [natBitsAux]
    by_cases h0 : n = 0
    · subst h0
      rw [if_pos rfl]
      constructor
      · intro _; exact pow_pos (by norm_num) k
      · intro _; exact Nat.zero_le k
    · rw [if_neg h0]
      cases k with
      | zero =>
        simp only [Nat.pow_zero]
        constructor
        · intro h; omega
        · intro h; omega
      | succ j =>
        rw [Nat.succ_le_succ_iff, ih (n / 2) j (by omega),
          Nat.div_lt_iff_lt_mul (by norm_num : 0 < 2), ← pow_succ]

theorem natBits_le_iff (n k : Nat) : natBits n ≤ k ↔ n < 2 ^ k :=
  natBitsAux_le_iff n n k le_rfl

theorem natBits_two_pow (k : Nat) : natBits (2 ^ k) = k + 1 := by
  apply le_antisymm
  · exact (natBits_le_iff _ _).mpr (Nat.pow_lt_pow_succ (by norm_num))
  · by_contra hcon
    push_neg at hcon
    exact absurd ((natBits_le_iff (2 ^ k) k).mp (by omega)) (lt_irrefl _)

theorem natBits_two_pow_sub_one (k : Nat) : natBits (2 ^ k - 1) = k := by
  cases k with
  | zero => decide
  | succ j =>
    apply le_antisymm
    · refine (natBits_le_iff _ _).mpr ?_
      have := pow_pos (by norm_num : (0 : Nat) < 2) (j + 1)
      omega
    · by_contra hcon
      push_neg at hcon
      have h2 := (natBits_le_iff (2 ^ (j + 1) - 1) j).mp (by omega)
      have h3 : 2 ^ (j + 1) = 2 * 2 ^ j := by rw [pow_succ]; ring
      have h4 := pow_pos (by norm_num : (0 : Nat) < 2) j
      omega

/-- C9 counterexample: the claim says the signed width check accepts the
boundary `+2^(n-1)` for an `n`-bit integer; at `n = 8` the check rejects
`+128` (the signed maximum of `int8` is `127`). -/
theorem c9_counterexample : checkIntSize ((2 : Int) ^ 7) 8 = false := by decide

/-- C9 (amended): for every bit width `n >= 1`, the signed width check
accepts `-2^(n-1)` (through the bit-count correction that makes a negative
power of two need exactly its magnitude's bit count) and the signed
maximum `2^(n-1) - 1`, and rejects `+2^(n-1)` and `+2^n`. -/
theorem c9_int_boundaries (n : Nat) (h : 1 ≤ n) :
    checkIntSize (-(2 ^ (n - 1) : Int)) n = true ∧
      checkIntSize ((2 ^ (n - 1) : Int) - 1) n = true ∧
      checkIntSize ((2 : Int) ^ (n - 1)) n = false ∧
      checkIntSize ((2 : Int) ^ n) n = false := by
  set N : Nat := 2 ^ (n - 1) with hN
  have hNpos : 0 < N := pow_pos (by norm_num) _
  have hcast : ((2 : Int) ^ (n - 1)) = (N : Int) := by rw [hN]; push_cast; rfl
  have hb1 : natBits N = n := by rw [hN, natBits_two_pow]; omega
  have hb2 : natBits (N - 1) = n - 1 := by rw [hN, natBits_two_pow_sub_one]
  have e1 : intBits (-(N : Int)) = n := by
    unfold intBits
    rw [show ((-(N : Int))).natAbs = N by omega, hb1]
  have e2 : intBits (-(N : Int) + 1) = n - 1 := by
    unfold intBits
    rw [show ((-(N : Int)) + 1).natAbs = N - 1 by omega, hb2]
  refine ⟨?_, ?_, ?_, ?_⟩
  · rw [hcast]
    unfold checkIntSize
    rw [if_pos ⟨by omega, by rw [e1, e2]; omega⟩, e1]
    simp
  · rw [hcast]
    have e3 : intBits ((N : Int) - 1) = n - 1 := by
      unfold intBits
      rw [show ((N : Int) - 1).natAbs = N - 1 by omega, hb2]
    unfold checkIntSize
    rw [if_neg (by rintro ⟨hneg, _⟩; omega), e3]
    simp only [decide_eq_true_eq]
    omega
  · rw [hcast]
    have e4 : intBits (N : Int) = n := by
      unfold intBits
      rw [show ((N : Int)).natAbs = N by omega, hb1]
    unfold checkIntSize
    rw [if_neg (by rintro ⟨hneg, _⟩; omega), e4]
    simp only [decide_eq_false_iff_not]
    omega
  · have hNpos2 : 0 < 2 ^ n := pow_pos (by norm_num) n
    have hcast2 : ((2 : Int) ^ n) = ((2 ^ n : Nat) : Int) := by push_cast; rfl
    have e5 : intBits ((2 ^ n : Nat) : Int) = n + 1 := by
      unfold intBits
      rw [show (((2 ^ n : Nat) : Int)).natAbs = 2 ^ n by omega, natBits_two_pow]
    rw [hcast2]
    unfold checkIntSize
    rw [if_neg (by rintro ⟨hneg, _⟩; omega), e5]
    simp only [decide_eq_false_iff_not]
    omega

theorem c9_int_boundaries_witness :
    checkIntSize (-(2 ^ (8 - 1) : Int)) 8 = true ∧
      checkIntSize ((2 ^ (8 - 1) : Int) - 1) 8 = true ∧
      checkIntSize ((2 : Int) ^ (8 - 1)) 8 = false ∧
      checkIntSize ((2 : Int) ^ 8) 8 = false :=
  c9_int_boundaries 8 (by decide)

/-- C10: `tokenize_map_key_parameter` range-checks a `Uint(m)` map key
against `m + 1` bits instead of `m`: a parsed key value is accepted
exactly when its bit count is at most `m + 1` (so a value `>= 2^m` with
`m + 1` bits is accepted as a `uint<m>` map key, as the witness shows at
`m = 8`, value `256`), whereas `tokenize_parameter`'s `tokenize_uint`
accepts the same string exactly when the bit count is at most `m`. -/
theorem c10_map_key_range (pa : String → Option String) (m : Nat) (s : String) (v : Nat)
    (hparse : readUintString s = some v) :
    ((∃ k, tokenizeMapKeyParameter pa (.uint m) s = .ok k) ↔ natBits v ≤ m + 1) ∧
      ((∃ t, tokenizeUint m (.jstr s) = .ok t) ↔ natBits v ≤ m) := by
  constructor
  · have hred : tokenizeMapKeyParameter pa (.uint m) s =
        (if !(checkUintSize v (m + 1)) then .error .invalidParameterValue
         else .ok (.uintKey ⟨v, m⟩)) := by
      unfold tokenizeMapKeyParameter
      rw [hparse]
    rw [hred]
    cases hb : checkUintSize v (m + 1) with
    | true =>
      have hle : natBits v ≤ m + 1 := by
        have := hb
        unfold checkUintSize at this
        exact of_decide_eq_true this
      simp only [hb, Bool.not_true, Bool.false_eq_true, if_false]
      exact ⟨fun _ => hle, fun _ => ⟨_, rfl⟩⟩
    | false =>
      have hgt : ¬(natBits v ≤ m + 1) := by
        have := hb
        unfold checkUintSize at this
        exact of_decide_eq_false this
      simp only [hb, Bool.not_false, if_true]
      constructor
      · rintro ⟨k, hk⟩; cases hk
      · intro hle; exact absurd hle hgt
  · have hred : tokenizeUint m (.jstr s) =
        (if !(checkUintSize v m) then .error .invalidParameterValue
         else .ok (.uint ⟨v, m⟩)) := by
      unfold tokenizeUint readUint
      show (match (match readUintString s with
          | some n => (Except.ok n : Except AbiError Nat)
          | none => Except.error AbiError.invalidParameterValue) with
        | Except.error e => Except.error e
        | Except.ok number =>
          if !(checkUintSize number m) then
            (Except.error AbiError.invalidParameterValue : Except AbiError TokenValue)
          else Except.ok (.uint ⟨number, m⟩)) = _
      rw [hparse]
    rw [hred]
    cases hb : checkUintSize v m with
    | true =>
      have hle : natBits v ≤ m := by
        have := hb
        unfold checkUintSize at this
        exact of_decide_eq_true this
      simp only [hb, Bool.not_true, Bool.false_eq_true, if_false]
      exact ⟨fun _ => hle, fun _ => ⟨_, rfl⟩⟩
    | false =>
      have hgt : ¬(natBits v ≤ m) := by
        have := hb
        unfold checkUintSize at this
        exact of_decide_eq_false this
      simp only [hb, Bool.not_false, if_true]
      constructor
      · rintro ⟨k, hk⟩; cases hk
      · intro hle; exact absurd hle hgt

theorem c10_map_key_range_witness :
    ((∃ k, tokenizeMapKeyParameter (fun _ => none) (.uint 8) "256" = .ok k) ↔
        natBits 256 ≤ 8 + 1) ∧
      ((∃ t, tokenizeUint 8 (.jstr "256") = .ok t) ↔ natBits 256 ≤ 8) :=
  c10_map_key_range (fun _ => none) 8 "256" 256 (by decide)
